import Mathlib

/-!
Shallow embedding of the `fault-injection` crate (src/lib.rs).

The crate exposes two macros, `maybe!` and `fallible!`, plus three pieces of
global state: `FAULT_INJECT_COUNTER : AtomicU64` (default `u64::MAX`),
`SLEEPINESS : AtomicU32` (default 0), and `TRIGGER_FN : AtomicPtr<Trigger>`
(default null).  `maybe!($e)`:

1. loads `SLEEPINESS`; if positive, computes
   `random_sleeps = (rdtsc as u16).trailing_zeros() as u32 * sleepiness`
   (u32 arithmetic, on non-x86 targets `rdtsc` is the constant `0b10`)
   and calls `std::thread::yield_now()` that many times;
2. performs `FAULT_INJECT_COUNTER.fetch_sub(1, AcqRel)` (u64 wrapping
   subtraction) and inspects the pre-decrement value;
3. if that value is exactly 1, loads `TRIGGER_FN`, calls it when non-null
   with `(CRATE_NAME, file!(), line!())`, and returns
   `Err(io::Error::new(ErrorKind::Other, "injected fault at C:F:L"))`
   without evaluating `$e`;
4. otherwise evaluates `$e`; `Ok` passes through unchanged, `Err(e)` becomes
   `Err(io::Error::new(e.kind(), "C:F:L -> <e>"))`.

`fallible!($e)` expands to `maybe!($e)?`.

The embedding models a single evaluation as a pure function from the global
state (counter, sleepiness, whether a trigger fn is registered), the platform
timestamp, the call-site origin and the wrapped operation result, to an
`EvalOutput` recording the returned `io::Result`, the post state of the
counter, the number of yields performed, the trigger invocations (with their
arguments) and whether the wrapped expression was evaluated.
-/

namespace FaultInjection

def U64_LIMIT : Nat := 2 ^ 64

def U32_LIMIT : Nat := 2 ^ 32

def U16_LIMIT : Nat := 2 ^ 16

/-- A subset of `std::io::ErrorKind` sufficient for the claims; `other`
models `ErrorKind::Other`, the kind of every injected fault. -/
inductive ErrorKind where
  | other
  | notFound
  | permissionDenied
  | wouldBlock
  | timedOut
  | unexpectedEof
  deriving DecidableEq, Repr

/-- `std::io::Error` as its observable pair: kind and display message. -/
structure IoError where
  kind : ErrorKind
  message : String
  deriving DecidableEq, Repr

/-- `std::io::Result<A>`. -/
abbrev IoResult (α : Type) := Except IoError α

/-- The call-site triple captured by the macro: `CARGO_CRATE_NAME`,
`file!()`, `line!()`. -/
structure Origin where
  crateName : String
  file : String
  line : Nat
  deriving DecidableEq, Repr

/-- The global injection state read and mutated by one evaluation:
`FAULT_INJECT_COUNTER` (a u64, kept `< 2^64`), `SLEEPINESS` (a u32), and
whether `TRIGGER_FN` holds a non-null pointer. -/
structure FaultState where
  faultInjectCounter : Nat
  sleepiness : Nat
  triggerRegistered : Bool
  deriving DecidableEq, Repr

/-- `fetch_sub(1)` on a u64: the stored post-decrement value, wrapping from
0 to `u64::MAX`. The pre-decrement value is the input itself. -/
def fetchSub1 (c : Nat) : Nat :=
  if c = 0 then U64_LIMIT - 1 else c - 1

/-- `trailing_zeros` of a `fuel`-bit value, by repeated halving; a value of
0 has `fuel` trailing zeros. -/
def trailingZerosAux : Nat → Nat → Nat
  | 0, _ => 0
  | fuel + 1, n => if n % 2 = 1 then 0 else trailingZerosAux fuel (n / 2) + 1

/-- `u16::trailing_zeros` of `n`'s 16-bit truncation (`rdtsc as u16`). -/
def trailingZeros16 (n : Nat) : Nat :=
  trailingZerosAux 16 (n % U16_LIMIT)

/-- The value the macro names `rdtsc`: on x86 targets the timestamp counter
truncated `as u16`; on other targets the literal `0b10`. -/
def rdtscValue (hasTimestamp : Bool) (tsc : Nat) : Nat :=
  if hasTimestamp then tsc % U16_LIMIT else 2

/-- `random_sleeps`: `rdtsc.trailing_zeros() as u32 * sleepiness` in u32
arithmetic (hence reduced `% 2^32`); the yield loop runs this many times.
When `SLEEPINESS` is 0 the whole block is skipped, so no yields occur. -/
def randomSleeps (sleepiness : Nat) (hasTimestamp : Bool) (tsc : Nat) : Nat :=
  if 0 < sleepiness then
    trailingZeros16 (rdtscValue hasTimestamp tsc) * sleepiness % U32_LIMIT
  else 0

/-- The origin tag `"C:F:L"` used by both error messages of the macro. -/
def originTag (o : Origin) : String :=
  o.crateName ++ ":" ++ o.file ++ ":" ++ toString o.line

/-- Message of an injected fault: `format!("injected fault at {}:{}:{}", ...)`. -/
def injectedMessage (o : Origin) : String :=
  "injected fault at " ++ originTag o

/-- Message of a forwarded error: `format!("{}:{}:{} -> {}", ...)`. -/
def forwardedMessage (o : Origin) (m : String) : String :=
  originTag o ++ " -> " ++ m

/-- Everything observable about one `maybe!` evaluation. -/
structure EvalOutput (α : Type) where
  result : IoResult α
  counterAfter : Nat
  yields : Nat
  triggerCalls : List Origin
  opInvoked : Bool

/-- One evaluation of `maybe!(op)` at call site `o`, in state `st`, on a
platform with (`hasT = true`) or without a timestamp counter reading `tsc`.
Mirrors src/lib.rs lines 108-168: the yield loop, the unconditional
`fetch_sub(1)`, the `== 1` trigger test, the trigger call, and the
injected/forwarded error construction. `opInvoked` records whether the
branch taken evaluates the macro argument `$e`. -/
def maybe {α : Type} (st : FaultState) (hasT : Bool) (tsc : Nat) (o : Origin)
    (op : IoResult α) : EvalOutput α :=
  let yields := randomSleeps st.sleepiness hasT tsc
  if st.faultInjectCounter = 1 then
    { result := Except.error ⟨ErrorKind.other, injectedMessage o⟩
      counterAfter := fetchSub1 st.faultInjectCounter
      yields := yields
      triggerCalls := if st.triggerRegistered then [o] else []
      opInvoked := false }
  else
    { result :=
        match op with
        | Except.ok a => Except.ok a
        | Except.error e => Except.error ⟨e.kind, forwardedMessage o e.message⟩
      counterAfter := fetchSub1 st.faultInjectCounter
      yields := yields
      triggerCalls := []
      opInvoked := true }

/-- Sequential (single-threaded) evaluation of a list of wrapped calls,
threading the counter through; sleepiness and the trigger slot are not
written by the macro, so they stay fixed. -/
def runSeq {α : Type} (st : FaultState) (hasT : Bool) (tsc : Nat) :
    List (Origin × IoResult α) → List (EvalOutput α)
  | [] => []
  | p :: rest =>
    let out := maybe st hasT tsc p.1 p.2
    out :: runSeq { st with faultInjectCounter := out.counterAfter } hasT tsc rest

/-- Control flow produced by the `?` in `fallible!`: either the unwrapped
success value for the caller's subsequent code, or an early return of the
error out of the enclosing function. -/
inductive FallibleFlow (α : Type) where
  | proceed : α → FallibleFlow α
  | earlyReturn : IoError → FallibleFlow α

/-- `fallible!($e)` expands to `maybe!($e)?` (src/lib.rs lines 96-100):
the base evaluation followed by the `?` operator on its result (`From` is
the identity on `io::Error`). -/
def fallible {α : Type} (st : FaultState) (hasT : Bool) (tsc : Nat) (o : Origin)
    (op : IoResult α) : FallibleFlow α × EvalOutput α :=
  let out := maybe st hasT tsc o op
  (match out.result with
   | Except.ok a => FallibleFlow.proceed a
   | Except.error e => FallibleFlow.earlyReturn e,
   out)

/-- Spec-side characterisation of "number of trailing zero bits of the
16-bit truncation of `v`": 16 when the truncation is 0, otherwise the
exact power of two dividing it. -/
def IsTrailingZeroCount16 (v k : Nat) : Prop :=
  (v % U16_LIMIT = 0 ∧ k = 16) ∨
  (v % U16_LIMIT ≠ 0 ∧ 2 ^ k ∣ v % U16_LIMIT ∧ ¬ 2 ^ (k + 1) ∣ v % U16_LIMIT)

/-! ### Helper lemmas -/

theorem trailingZerosAux_le (fuel : Nat) : ∀ n, trailingZerosAux fuel n ≤ fuel := by
  induction fuel with
  | zero => intro n; simp [trailingZerosAux]
  | succ fuel ih =>
    intro n
    simp only [trailingZerosAux]
    split
    · exact Nat.zero_le _
    · exact Nat.succ_le_succ (ih (n / 2))

theorem trailingZerosAux_zero (fuel : Nat) : trailingZerosAux fuel 0 = fuel := by
  induction fuel with
  | zero => rfl
  | succ fuel ih => simp [trailingZerosAux, ih]

theorem trailingZerosAux_dvd (fuel : Nat) :
    ∀ n, 0 < n → n < 2 ^ fuel →
      2 ^ trailingZerosAux fuel n ∣ n ∧ ¬ 2 ^ (trailingZerosAux fuel n + 1) ∣ n := by
  induction fuel with
  | zero => intro n hn hlt; omega
  | succ fuel ih =>
    intro n hn hlt
    by_cases hodd : n % 2 = 1
    · simp only [trailingZerosAux, if_pos hodd]
      refine ⟨one_dvd n, ?_⟩
      intro hdvd
      rw [zero_add, pow_one] at hdvd
      omega
    · have heven : n % 2 = 0 := by omega
      have hhalf_pos : 0 < n / 2 := by omega
      have hhalf_lt : n / 2 < 2 ^ fuel := by
        rw [Nat.div_lt_iff_lt_mul (by omega : (0:Nat) < 2)]
        calc n < 2 ^ (fuel + 1) := hlt
          _ = 2 ^ fuel * 2 := by ring
      obtain ⟨hdvd, hndvd⟩ := ih (n / 2) hhalf_pos hhalf_lt
      have hn2 : n = 2 * (n / 2) := by omega
      simp only [trailingZerosAux, if_neg hodd]
      set k := trailingZerosAux fuel (n / 2) with hk
      constructor
      · have h2 : 2 ^ (k + 1) ∣ 2 * (n / 2) := by
          rw [pow_succ, Nat.mul_comm (2 ^ k) 2]
          exact Nat.mul_dvd_mul_left 2 hdvd
        rwa [← hn2] at h2
      · intro hcon
        apply hndvd
        rw [hn2] at hcon
        rw [pow_succ, Nat.mul_comm (2 ^ (k + 1)) 2] at hcon
        exact (Nat.mul_dvd_mul_iff_left (by omega : (0:Nat) < 2)).mp hcon

theorem isTrailingZeroCount16_trailingZeros16 (v : Nat) :
    IsTrailingZeroCount16 v (trailingZeros16 v) := by
  by_cases h0 : v % U16_LIMIT = 0
  · left
    refine ⟨h0, ?_⟩
    simp [trailingZeros16, h0, trailingZerosAux_zero]
  · right
    refine ⟨h0, ?_⟩
    exact trailingZerosAux_dvd 16 (v % U16_LIMIT) (by omega)
      (Nat.mod_lt v (by simp [U16_LIMIT]))

theorem trailingZeros16_mod (v : Nat) :
    trailingZeros16 (v % U16_LIMIT) = trailingZeros16 v := by
  unfold trailingZeros16
  rw [Nat.mod_mod_of_dvd v dvd_rfl]

theorem maybe_counterAfter {α : Type} (st : FaultState) (hasT : Bool) (tsc : Nat)
    (o : Origin) (op : IoResult α) :
    (maybe st hasT tsc o op).counterAfter = fetchSub1 st.faultInjectCounter := by
  unfold maybe
  split <;> rfl

theorem maybe_yields_eq {α : Type} (st : FaultState) (hasT : Bool) (tsc : Nat)
    (o : Origin) (op : IoResult α) :
    (maybe st hasT tsc o op).yields = randomSleeps st.sleepiness hasT tsc := by
  unfold maybe
  split <;> rfl

theorem maybe_of_ne_one {α : Type} (st : FaultState) (hasT : Bool) (tsc : Nat)
    (o : Origin) (op : IoResult α) (h : st.faultInjectCounter ≠ 1) :
    maybe st hasT tsc o op =
      { result :=
          match op with
          | Except.ok a => Except.ok a
          | Except.error e => Except.error ⟨e.kind, forwardedMessage o e.message⟩
        counterAfter := fetchSub1 st.faultInjectCounter
        yields := randomSleeps st.sleepiness hasT tsc
        triggerCalls := []
        opInvoked := true } := by
  unfold maybe
  simp [h]

theorem maybe_of_eq_one {α : Type} (st : FaultState) (hasT : Bool) (tsc : Nat)
    (o : Origin) (op : IoResult α) (h : st.faultInjectCounter = 1) :
    maybe st hasT tsc o op =
      { result := Except.error ⟨ErrorKind.other, injectedMessage o⟩
        counterAfter := 0
        yields := randomSleeps st.sleepiness hasT tsc
        triggerCalls := if st.triggerRegistered then [o] else []
        opInvoked := false } := by
  unfold maybe
  simp [h, fetchSub1]

theorem runSeq_length {α : Type} (hasT : Bool) (tsc : Nat)
    (calls : List (Origin × IoResult α)) :
    ∀ st, (runSeq st hasT tsc calls).length = calls.length := by
  induction calls with
  | nil => intro st; rfl
  | cons p rest ih => intro st; simp [runSeq, ih]

theorem runSeq_getElem {α : Type} (hasT : Bool) (tsc : Nat)
    (calls : List (Origin × IoResult α)) :
    ∀ (c slp : Nat) (trg : Bool) (i : Nat) (hi : i < calls.length), i < c →
      (runSeq ⟨c, slp, trg⟩ hasT tsc calls)[i]? =
        some (maybe ⟨c - i, slp, trg⟩ hasT tsc (calls.get ⟨i, hi⟩).1
          (calls.get ⟨i, hi⟩).2) := by
  induction calls with
  | nil => intro c slp trg i hi _; simp at hi
  | cons p rest ih =>
    intro c slp trg i hi hcnt
    match i with
    | 0 => simp [runSeq]
    | Nat.succ j =>
      have hc1 : c ≠ 0 := by omega
      have hafter : (maybe ⟨c, slp, trg⟩ hasT tsc p.1 p.2).counterAfter = c - 1 := by
        rw [maybe_counterAfter]
        unfold fetchSub1
        rw [if_neg hc1]
      have hj : j < rest.length := by simpa using hi
      simp only [runSeq, List.getElem?_cons_succ]
      rw [hafter, ih (c - 1) slp trg j hj (by omega)]
      have hcc : c - 1 - j = c - (j + 1) := by omega
      rw [hcc]
      rfl

/-! ### Claim theorems -/

/-- Claim C1: with the counter armed to exactly N (1 ≤ N < 2^64), a
single-threaded sequence of N wrapped evaluations of operations that would
succeed has its first N-1 evaluations return the success value unchanged
(invoking the operation), and the Nth evaluation return the injected
failure without invoking that operation. -/
theorem countdown_determinism {α : Type} (N slp : Nat) (trg hasT : Bool)
    (tsc : Nat) (os : Nat → Origin) (vs : Nat → α) (hN : 1 ≤ N)
    (hNmax : N < U64_LIMIT) (i : Nat) (hi : i < N) :
    ∃ out : EvalOutput α,
      (runSeq ⟨N, slp, trg⟩ hasT tsc
        ((List.range N).map (fun j => (os j, Except.ok (vs j)))))[i]? = some out ∧
      (i < N - 1 → out.result = Except.ok (vs i) ∧ out.opInvoked = true) ∧
      (i = N - 1 →
        out.result = Except.error ⟨ErrorKind.other, injectedMessage (os i)⟩ ∧
        out.opInvoked = false) := by
  have hi2 : i < ((List.range N).map
      fun j => (os j, (Except.ok (vs j) : IoResult α))).length := by
    simpa using hi
  have hget : (((List.range N).map
      fun j => (os j, (Except.ok (vs j) : IoResult α))).get ⟨i, hi2⟩) =
      (os i, Except.ok (vs i)) := by
    simp
  refine ⟨maybe ⟨N - i, slp, trg⟩ hasT tsc (os i) (Except.ok (vs i)), ?_, ?_, ?_⟩
  · rw [runSeq_getElem hasT tsc _ N slp trg i hi2 hi]
    simp [hget]
  · intro hlt
    have hne : N - i ≠ 1 := by omega
    rw [maybe_of_ne_one ⟨N - i, slp, trg⟩ hasT tsc (os i) _ hne]
    exact ⟨rfl, rfl⟩
  · intro heq
    have h1 : N - i = 1 := by omega
    rw [maybe_of_eq_one ⟨N - i, slp, trg⟩ hasT tsc (os i) _ h1]
    exact ⟨rfl, rfl⟩

/-- Witness for C1 at N = 2: the second of two armed evaluations is the
injected failure and its operation is not invoked. -/
theorem countdown_determinism_witness :
    ∃ out : EvalOutput Nat,
      (runSeq ⟨2, 0, false⟩ false 0
        ((List.range 2).map (fun j => (⟨"crateA", "lib.rs", j⟩,
          Except.ok j))))[1]? = some out ∧
      out.result = Except.error ⟨ErrorKind.other,
        injectedMessage ⟨"crateA", "lib.rs", 1⟩⟩ ∧
      out.opInvoked = false := by
  obtain ⟨out, h1, _, h3⟩ := countdown_determinism 2 0 false false 0
    (fun j => ⟨"crateA", "lib.rs", j⟩) (fun j => j) (by omega)
    (by norm_num [U64_LIMIT]) 1 (by omega)
  exact ⟨out, h1, (h3 rfl).1, (h3 rfl).2⟩

/-- Claim C2 counterexample: arming the counter to 0 and evaluating a
succeeding operation does not produce an injected failure, contrary to the
claim: the result is the operation's success value, the operation is
invoked, and the counter wraps to u64::MAX. -/
theorem saturation_counterexample :
    (maybe ⟨0, 0, false⟩ false 0 ⟨"crateA", "lib.rs", 10⟩
      (Except.ok (42 : Nat))).result = Except.ok 42 ∧
    (maybe ⟨0, 0, false⟩ false 0 ⟨"crateA", "lib.rs", 10⟩
      (Except.ok (42 : Nat))).counterAfter = U64_LIMIT - 1 ∧
    (maybe ⟨0, 0, false⟩ false 0 ⟨"crateA", "lib.rs", 10⟩
      (Except.ok (42 : Nat))).opInvoked = true := by
  exact ⟨rfl, rfl, rfl⟩

/-- Claim C2 (amended): an evaluation that observes pre-decrement counter
value 0 does NOT produce a synthetic failure: no trigger fires, the real
operation is invoked and its success forwarded, and the counter wraps to
u64::MAX; a synthetic failure is produced only by the evaluation observing
pre-decrement value exactly 1. -/
theorem saturation_amended {α : Type} (st : FaultState) (hasT : Bool)
    (tsc : Nat) (o : Origin) (op : IoResult α)
    (h0 : st.faultInjectCounter = 0) :
    (maybe st hasT tsc o op).opInvoked = true ∧
    (maybe st hasT tsc o op).triggerCalls = [] ∧
    (maybe st hasT tsc o op).counterAfter = U64_LIMIT - 1 ∧
    (∀ a : α, op = Except.ok a →
      (maybe st hasT tsc o op).result = Except.ok a) := by
  have hne : st.faultInjectCounter ≠ 1 := by omega
  rw [maybe_of_ne_one st hasT tsc o op hne]
  refine ⟨rfl, rfl, ?_, ?_⟩
  · simp [fetchSub1, h0]
  · intro a ha
    subst ha
    rfl

/-- Witness for the amended C2 at counter 0 and a succeeding operation. -/
theorem saturation_amended_witness :
    (maybe ⟨0, 0, true⟩ false 0 ⟨"crateA", "lib.rs", 10⟩
      (Except.ok (7 : Nat))).opInvoked = true ∧
    (maybe ⟨0, 0, true⟩ false 0 ⟨"crateA", "lib.rs", 10⟩
      (Except.ok (7 : Nat))).triggerCalls = [] ∧
    (maybe ⟨0, 0, true⟩ false 0 ⟨"crateA", "lib.rs", 10⟩
      (Except.ok (7 : Nat))).counterAfter = U64_LIMIT - 1 ∧
    (maybe ⟨0, 0, true⟩ false 0 ⟨"crateA", "lib.rs", 10⟩
      (Except.ok (7 : Nat))).result = Except.ok 7 := by
  obtain ⟨h1, h2, h3, h4⟩ := saturation_amended ⟨0, 0, true⟩ false 0
    ⟨"crateA", "lib.rs", 10⟩ (Except.ok (7 : Nat)) rfl
  exact ⟨h1, h2, h3, h4 7 rfl⟩

/-- Claim C3: on the evaluation whose decrement observes pre-decrement
value 1, a registered trigger callback is invoked exactly once with the
origin's crate name, file and line (trace exactly [o]; in the source the
call happens before the error is constructed), and the evaluation returns
the synthetic failure of kind Other carrying the origin-encoding message,
without invoking the operation. -/
theorem trigger_event_behavior {α : Type} (st : FaultState) (hasT : Bool)
    (tsc : Nat) (o : Origin) (op : IoResult α)
    (h1 : st.faultInjectCounter = 1) (hreg : st.triggerRegistered = true) :
    (maybe st hasT tsc o op).triggerCalls = [o] ∧
    (maybe st hasT tsc o op).result =
      Except.error ⟨ErrorKind.other, injectedMessage o⟩ ∧
    (maybe st hasT tsc o op).opInvoked = false := by
  rw [maybe_of_eq_one st hasT tsc o op h1]
  exact ⟨by simp [hreg], rfl, rfl⟩

/-- Witness for C3 at counter 1 with a registered trigger. -/
theorem trigger_event_behavior_witness :
    (maybe ⟨1, 0, true⟩ false 0 ⟨"crateA", "lib.rs", 33⟩
      (Except.ok (5 : Nat))).triggerCalls = [⟨"crateA", "lib.rs", 33⟩] ∧
    (maybe ⟨1, 0, true⟩ false 0 ⟨"crateA", "lib.rs", 33⟩
      (Except.ok (5 : Nat))).result =
      Except.error ⟨ErrorKind.other, "injected fault at crateA:lib.rs:33"⟩ ∧
    (maybe ⟨1, 0, true⟩ false 0 ⟨"crateA", "lib.rs", 33⟩
      (Except.ok (5 : Nat))).opInvoked = false := by
  have h := trigger_event_behavior ⟨1, 0, true⟩ false 0
    ⟨"crateA", "lib.rs", 33⟩ (Except.ok (5 : Nat)) rfl rfl
  refine ⟨h.1, ?_, h.2.2⟩
  rw [h.2.1]
  rfl

/-- Claim C4: a non-trigger evaluation of an operation failing with kind K
and message M returns a failure still of kind K whose message is exactly
"crate:file:line -> M", hence has the original message as a suffix. -/
theorem forwarding_preserves_kind {α : Type} (st : FaultState) (hasT : Bool)
    (tsc : Nat) (o : Origin) (k : ErrorKind) (m : String)
    (hne : st.faultInjectCounter ≠ 1) :
    (maybe (α := α) st hasT tsc o (Except.error ⟨k, m⟩)).result =
      Except.error ⟨k, forwardedMessage o m⟩ ∧
    (∃ p : String, forwardedMessage o m = p ++ m) := by
  rw [maybe_of_ne_one st hasT tsc o (Except.error ⟨k, m⟩) hne]
  exact ⟨rfl, ⟨originTag o ++ " -> ", rfl⟩⟩

/-- Witness for C4: a "not found" failure stays "not found" and gets the
origin tag prefixed to its message. -/
theorem forwarding_preserves_kind_witness :
    (maybe (α := Nat) ⟨10, 0, false⟩ false 0 ⟨"crateA", "lib.rs", 44⟩
      (Except.error ⟨ErrorKind.notFound, "no such file"⟩)).result =
      Except.error ⟨ErrorKind.notFound, "crateA:lib.rs:44 -> no such file"⟩ := by
  have h := forwarding_preserves_kind (α := Nat) ⟨10, 0, false⟩ false 0
    ⟨"crateA", "lib.rs", 44⟩ ErrorKind.notFound "no such file" (by decide)
  rw [h.1]
  rfl

/-- Claim C5: `fallible!` expands to `maybe!($e)?`: its underlying
evaluation (delay, decrement, trigger, annotation) is exactly the base
one, and its control flow unwraps success values and early-returns error
values, never converting between the two. -/
theorem fallible_equiv_maybe {α : Type} (st : FaultState) (hasT : Bool)
    (tsc : Nat) (o : Origin) (op : IoResult α) :
    (fallible st hasT tsc o op).2 = maybe st hasT tsc o op ∧
    (∀ a : α, (fallible st hasT tsc o op).1 = FallibleFlow.proceed a ↔
      (maybe st hasT tsc o op).result = Except.ok a) ∧
    (∀ e : IoError, (fallible st hasT tsc o op).1 = FallibleFlow.earlyReturn e ↔
      (maybe st hasT tsc o op).result = Except.error e) := by
  refine ⟨rfl, ?_, ?_⟩
  · intro a
    cases hres : (maybe st hasT tsc o op).result with
    | ok b => simp [fallible, hres]
    | error e => simp [fallible, hres]
  · intro e
    cases hres : (maybe st hasT tsc o op).result with
    | ok b => simp [fallible, hres]
    | error f => simp [fallible, hres]

/-- Claim C8: when the counter is 0, the fetch_sub observes 0 (not 1): no
injection happens, the operation is invoked, and the counter wraps to
u64::MAX = 2^64 - 1; the following u64::MAX - 1 evaluations then also
invoke their operations (injection effectively disabled until the counter
counts back down to 1). -/
theorem counter_wrap_at_zero {α : Type} (st : FaultState) (hasT : Bool)
    (tsc : Nat) (o : Origin) (op : IoResult α)
    (h0 : st.faultInjectCounter = 0) :
    (maybe st hasT tsc o op).opInvoked = true ∧
    (maybe st hasT tsc o op).counterAfter = U64_LIMIT - 1 ∧
    (∀ (calls : List (Origin × IoResult α)) (i : Nat) (hi : i < calls.length),
      i < U64_LIMIT - 2 →
      ∀ out : EvalOutput α,
        (runSeq ⟨U64_LIMIT - 1, st.sleepiness, st.triggerRegistered⟩ hasT tsc
          calls)[i]? = some out →
        out.opInvoked = true) := by
  have hne : st.faultInjectCounter ≠ 1 := by omega
  refine ⟨?_, ?_, ?_⟩
  · rw [maybe_of_ne_one st hasT tsc o op hne]
  · rw [maybe_of_ne_one st hasT tsc o op hne]
    simp [fetchSub1, h0]
  · intro calls i hi hwrap out hout
    rw [runSeq_getElem hasT tsc calls (U64_LIMIT - 1) st.sleepiness
      st.triggerRegistered i hi (by omega)] at hout
    have hne2 : U64_LIMIT - 1 - i ≠ 1 := by omega
    rw [maybe_of_ne_one ⟨U64_LIMIT - 1 - i, st.sleepiness, st.triggerRegistered⟩
      hasT tsc _ _ hne2] at hout
    simp only [Option.some.injEq] at hout
    subst hout
    rfl

/-- Witness for C8: from counter 0, one evaluation passes through and
wraps the counter to 2^64 - 1. -/
theorem counter_wrap_at_zero_witness :
    (maybe (α := Nat) ⟨0, 0, false⟩ false 0 ⟨"crateA", "lib.rs", 10⟩
      (Except.ok 7)).opInvoked = true ∧
    (maybe (α := Nat) ⟨0, 0, false⟩ false 0 ⟨"crateA", "lib.rs", 10⟩
      (Except.ok 7)).counterAfter = U64_LIMIT - 1 := by
  have h := counter_wrap_at_zero ⟨0, 0, false⟩ false 0
    ⟨"crateA", "lib.rs", 10⟩ (Except.ok (7 : Nat)) rfl
  exact ⟨h.1, h.2.1⟩

/-- Claim C9: the wrapped operation expression is evaluated exactly on the
non-trigger evaluations: never when the pre-decrement counter is 1, and
exactly once (the Bool trace) on every other evaluation. -/
theorem op_invoked_iff_not_trigger {α : Type} (st : FaultState) (hasT : Bool)
    (tsc : Nat) (o : Origin) (op : IoResult α) :
    (maybe st hasT tsc o op).opInvoked = false ↔ st.faultInjectCounter = 1 := by
  by_cases h : st.faultInjectCounter = 1
  · rw [maybe_of_eq_one st hasT tsc o op h]
    simp [h]
  · rw [maybe_of_ne_one st hasT tsc o op h]
    simp [h]

/-- Claim C6 counterexample: with Delay Intensity 2^28 and a timestamp
whose 16-bit truncation is 0 (16 trailing zero bits), the claimed yield
count 16 * 2^28 = 2^32 overflows the u32 multiplication and the code
performs 0 yields, not 2^32. -/
theorem jitter_formula_counterexample :
    (maybe (α := Nat) ⟨5, 2 ^ 28, false⟩ true 0 ⟨"crateA", "lib.rs", 10⟩
      (Except.ok 1)).yields = 0 ∧
    trailingZeros16 (rdtscValue true 0) * 2 ^ 28 = 2 ^ 32 ∧
    (0 : Nat) ≠ 2 ^ 32 := by
  exact ⟨by decide, by decide, by decide⟩

/-- Claim C6 (amended): an evaluation performs no yields when Delay
Intensity is 0; when it is positive, the yield count is the number of
trailing zero bits of the 16-bit truncation of the timestamp (with the
constant 2 standing in for the timestamp on platforms without one),
multiplied by Delay Intensity in u32 arithmetic, i.e. the product reduced
modulo 2^32. -/
theorem jitter_count_amended {α : Type} (st : FaultState) (hasT : Bool)
    (tsc : Nat) (o : Origin) (op : IoResult α) :
    (st.sleepiness = 0 → (maybe st hasT tsc o op).yields = 0) ∧
    (0 < st.sleepiness → ∃ k : Nat,
      IsTrailingZeroCount16 (if hasT then tsc else 2) k ∧
      (maybe st hasT tsc o op).yields = k * st.sleepiness % U32_LIMIT) := by
  rw [maybe_yields_eq]
  constructor
  · intro h
    simp [randomSleeps, h]
  · intro h
    have harg : trailingZeros16 (rdtscValue hasT tsc) =
        trailingZeros16 (if hasT then tsc else 2) := by
      cases hasT
      · rfl
      · show trailingZeros16 (tsc % U16_LIMIT) = trailingZeros16 tsc
        exact trailingZeros16_mod tsc
    refine ⟨trailingZeros16 (if hasT then tsc else 2),
      isTrailingZeroCount16_trailingZeros16 _, ?_⟩
    unfold randomSleeps
    rw [if_pos h, harg]

/-- Witness for the amended C6: sleepiness 4, timestamp 12 (two trailing
zero bits) yields 2 * 4 % 2^32 = 8 yields. -/
theorem jitter_count_amended_witness :
    ∃ k : Nat, IsTrailingZeroCount16 12 k ∧
      (maybe (α := Nat) ⟨3, 4, false⟩ true 12 ⟨"crateA", "lib.rs", 10⟩
        (Except.ok 1)).yields = k * 4 % U32_LIMIT := by
  have h := (jitter_count_amended (α := Nat) ⟨3, 4, false⟩ true 12
    ⟨"crateA", "lib.rs", 10⟩ (Except.ok 1)).2 (by decide)
  exact h

/-- Claim C7: for every state and every timestamp value (including 0),
the number of yield-loop iterations of an evaluation is at most
16 * sleepiness, so the delay step is bounded and never blocks. -/
theorem delay_bounded {α : Type} (st : FaultState) (hasT : Bool) (tsc : Nat)
    (o : Origin) (op : IoResult α) :
    (maybe st hasT tsc o op).yields ≤ 16 * st.sleepiness := by
  rw [maybe_yields_eq]
  unfold randomSleeps
  split
  · calc trailingZeros16 (rdtscValue hasT tsc) * st.sleepiness % U32_LIMIT
        ≤ trailingZeros16 (rdtscValue hasT tsc) * st.sleepiness :=
          Nat.mod_le _ _
      _ ≤ 16 * st.sleepiness :=
          Nat.mul_le_mul (trailingZerosAux_le 16 _) (le_refl _)
  · exact Nat.zero_le _

end FaultInjection
